import Mathlib

/-!
Verification of the segment-analyze-verify-extract pipeline of the
clip_cutter repository, as a shallow embedding in Lean 4.

Conventions of the embedding:
* Python floats (durations, timestamps, confidence scores) are modelled as
  exact rationals `ℚ`; the claims under study are about the arithmetic
  structure of the pipeline, not about binary floating-point rounding.
* Python dicts produced by JSON parsing are modelled as records whose
  fields are `Option`-valued: `none` models an absent key, and
  `dict.get(k, default)` becomes `Option.getD`.
* Side effects (ffmpeg invocations, file writes, logging) are dropped; the
  values that the code passes to those effects (cut offsets/durations,
  output paths) are returned instead.
* The per-run cancellation flag (`threading.Event`) is modelled as a
  function `cancel : ℕ → Bool` giving the value of the flag at its n-th
  observation; every model function threads an observation counter.
* The remote service (upload / poll / generate) is modelled by oracles
  supplied as parameters, one per remote behaviour.
-/

/- ======================================================================
   Segmenter: backend/services/analyzer.py, split_video_into_segments
   ====================================================================== -/

/--
The `while current_start < total_duration` loop of
`split_video_into_segments` (analyzer.py lines 319-348).  Each iteration
emits the pair `(current_start, actual_duration)` that the code passes to
ffmpeg (`ss=current_start, t=actual_duration`) and stores
(`segments.append((segment_path, current_start))`); the materialized
`segment_path` carries no further information.  `fuel` bounds the number
of iterations; `split_video_into_segments` below supplies enough fuel
that the bound is never hit for a positive segment duration.
-/
def splitLoop (total_duration segment_duration : ℚ) : ℕ → ℚ → List (ℚ × ℚ)
  | 0, _ => []
  | fuel + 1, current_start =>
    if current_start < total_duration then
      let segment_end := min (current_start + segment_duration) total_duration
      (current_start, segment_end - current_start) ::
        splitLoop total_duration segment_duration fuel segment_end
    else []

/--
`split_video_into_segments(video_path, segment_duration, ...)`
(analyzer.py lines 304-350), with the probed `total_duration` passed
directly.  Returns the list of `(start_offset, actual_duration)` pairs of
the produced segments, in order.
-/
def split_video_into_segments (total_duration segment_duration : ℚ) : List (ℚ × ℚ) :=
  splitLoop total_duration segment_duration (⌈total_duration / segment_duration⌉.toNat) 0

lemma splitLoop_nil_of_le {D s cur : ℚ} (fuel : ℕ) (h : D ≤ cur) :
    splitLoop D s fuel cur = [] := by
  cases fuel with
  | zero => rfl
  | succ n => simp [splitLoop, not_lt.mpr h]

lemma splitLoop_head {D s cur : ℚ} {fuel : ℕ} (h : cur < D) (hf : 0 < fuel) :
    (splitLoop D s fuel cur).head? = some (cur, min (cur + s) D - cur) := by
  cases fuel with
  | zero => exact absurd hf (lt_irrefl 0)
  | succ n => simp [splitLoop, h]

lemma splitLoop_ne_nil {D s cur : ℚ} {fuel : ℕ} (h : cur < D) (hf : 0 < fuel) :
    splitLoop D s fuel cur ≠ [] := by
  cases fuel with
  | zero => exact absurd hf (lt_irrefl 0)
  | succ n => simp [splitLoop, h]

lemma splitLoop_start_le {D s : ℚ} (hs : 0 < s) :
    ∀ (fuel : ℕ) (cur : ℚ), ∀ p ∈ splitLoop D s fuel cur, cur ≤ p.1 := by
  intro fuel
  induction fuel with
  | zero => intro cur p hp; simp [splitLoop] at hp
  | succ n ih =>
    intro cur p hp
    by_cases h : cur < D
    · simp only [splitLoop, if_pos h, List.mem_cons] at hp
      rcases hp with rfl | hp
      · exact le_refl _
      · have h1 : cur ≤ min (cur + s) D :=
          le_min (le_add_of_nonneg_right hs.le) h.le
        exact h1.trans (ih _ p hp)
    · simp [splitLoop, h] at hp

lemma splitLoop_chain {D s : ℚ} :
    ∀ (fuel : ℕ) (cur : ℚ),
      (splitLoop D s fuel cur).Chain' (fun p q => q.1 = p.1 + p.2) := by
  intro fuel
  induction fuel with
  | zero => intro cur; simp [splitLoop]
  | succ n ih =>
    intro cur
    by_cases h : cur < D
    · simp only [splitLoop, if_pos h]
      refine List.chain'_cons'.mpr ⟨?_, ih _⟩
      intro q hq
      rcases Nat.eq_zero_or_pos n with rfl | hn
      · simp [splitLoop] at hq
      · by_cases he : min (cur + s) D < D
        · rw [splitLoop_head he hn] at hq
          simp only [Option.mem_def, Option.some.injEq] at hq
          subst hq
          ring
        · rw [splitLoop_nil_of_le n (not_lt.mp he)] at hq
          simp at hq
    · simp [splitLoop, h]

lemma getLast?_cons_of_tail_ne_nil {α : Type} (a : α) {l : List α} (h : l ≠ []) :
    (a :: l).getLast? = l.getLast? := by
  cases l with
  | nil => exact absurd rfl h
  | cons b t => exact List.getLast?_cons_cons

lemma splitLoop_dropLast {D s : ℚ} :
    ∀ (fuel : ℕ) (cur : ℚ), ∀ p ∈ (splitLoop D s fuel cur).dropLast, p.2 = s := by
  intro fuel
  induction fuel with
  | zero => intro cur p hp; simp [splitLoop] at hp
  | succ n ih =>
    intro cur p hp
    by_cases h : cur < D
    · simp only [splitLoop, if_pos h] at hp
      by_cases hT : splitLoop D s n (min (cur + s) D) = []
      · rw [hT] at hp; simp at hp
      · rw [List.dropLast_cons_of_ne_nil hT, List.mem_cons] at hp
        rcases hp with rfl | hp
        · -- the tail is nonempty, so the segment was not clipped by D
          have he : min (cur + s) D < D := by
            by_contra hc
            exact hT (splitLoop_nil_of_le n (not_lt.mp hc))
          have : cur + s ≤ D := by
            by_contra hc
            rw [min_eq_right (le_of_not_le (fun hle => hc hle))] at he
            exact absurd he (lt_irrefl D)
          simp only [min_eq_left this]
          ring
        · exact ih _ p hp
    · simp [splitLoop, h] at hp

lemma splitLoop_getLast {D s : ℚ} :
    ∀ (fuel : ℕ) (cur : ℚ), cur < D → D ≤ cur + (fuel : ℚ) * s →
      ∀ p, (splitLoop D s fuel cur).getLast? = some p → p.1 + p.2 = D := by
  intro fuel
  induction fuel with
  | zero =>
    intro cur hcur hfuel p hp
    exact absurd (hfuel.trans_lt (by simpa using hcur)) (by simp)
  | succ n ih =>
    intro cur hcur hfuel p hp
    simp only [splitLoop, if_pos hcur] at hp
    by_cases hT : splitLoop D s n (min (cur + s) D) = []
    · rw [hT, List.getLast?_singleton] at hp
      have hmin : min (cur + s) D = D := by
        rcases Nat.eq_zero_or_pos n with rfl | hn
        · have : D ≤ cur + s := by
            have := hfuel
            push_cast at this
            linarith
          exact min_eq_right this
        · by_contra hc
          have he : min (cur + s) D < D :=
            lt_of_le_of_ne (min_le_right _ _) hc
          exact splitLoop_ne_nil he hn hT
      simp only [Option.some.injEq] at hp
      subst hp
      simp [hmin]
    · rw [getLast?_cons_of_tail_ne_nil _ hT] at hp
      have he : min (cur + s) D < D := by
        by_contra hc
        exact hT (splitLoop_nil_of_le n (not_lt.mp hc))
      have hmin : min (cur + s) D = cur + s := by
        rcases le_or_lt (cur + s) D with hle | hlt
        · exact min_eq_left hle
        · rw [min_eq_right hlt.le] at he
          exact absurd he (lt_irrefl D)
      refine ih (min (cur + s) D) he ?_ p hp
      rw [hmin]
      push_cast at hfuel ⊢
      linarith

lemma splitLoop_pos {D s : ℚ} (hs : 0 < s) :
    ∀ (fuel : ℕ) (cur : ℚ), ∀ p ∈ splitLoop D s fuel cur, 0 < p.2 := by
  intro fuel
  induction fuel with
  | zero => intro cur p hp; simp [splitLoop] at hp
  | succ n ih =>
    intro cur p hp
    by_cases h : cur < D
    · simp only [splitLoop, if_pos h, List.mem_cons] at hp
      rcases hp with rfl | hp
      · have : cur < min (cur + s) D := lt_min (by linarith) h
        simpa using sub_pos.mpr this
      · exact ih _ p hp
    · simp [splitLoop, h] at hp

lemma splitLoop_pairwise {D s : ℚ} (hs : 0 < s) :
    ∀ (fuel : ℕ) (cur : ℚ),
      (splitLoop D s fuel cur).Pairwise (fun p q => p.1 + p.2 ≤ q.1) := by
  intro fuel
  induction fuel with
  | zero => intro cur; simp [splitLoop]
  | succ n ih =>
    intro cur
    by_cases h : cur < D
    · simp only [splitLoop, if_pos h]
      refine List.pairwise_cons.mpr ⟨?_, ih _⟩
      intro q hq
      have := splitLoop_start_le hs n (min (cur + s) D) q hq
      simpa using this
    · simp [splitLoop, h]

lemma splitLoop_union {D s : ℚ} (hs : 0 < s) :
    ∀ (fuel : ℕ) (cur : ℚ), D ≤ cur + (fuel : ℚ) * s →
      ∀ t : ℚ, (cur ≤ t ∧ t < D) ↔
        ∃ p ∈ splitLoop D s fuel cur, p.1 ≤ t ∧ t < p.1 + p.2 := by
  intro fuel
  induction fuel with
  | zero =>
    intro cur hfuel t
    push_cast at hfuel
    simp only [splitLoop, List.not_mem_nil]
    constructor
    · rintro ⟨h1, h2⟩
      exact absurd (h2.trans_le (by linarith)) (lt_irrefl t)
    · rintro ⟨p, hp, -⟩
      exact absurd hp (by simp)
  | succ n ih =>
    intro cur hfuel t
    by_cases h : cur < D
    · have hDe : D ≤ min (cur + s) D + (n : ℚ) * s := by
        rcases le_or_lt (cur + s) D with hle | hlt
        · rw [min_eq_left hle]
          push_cast at hfuel
          linarith
        · rw [min_eq_right hlt.le]
          have : (0:ℚ) ≤ (n : ℚ) * s := by positivity
          linarith
      have hcur_min : cur ≤ min (cur + s) D := le_min (by linarith) h.le
      have hmin_le : min (cur + s) D ≤ D := min_le_right _ _
      simp only [splitLoop, if_pos h, List.mem_cons]
      constructor
      · rintro ⟨h1, h2⟩
        rcases lt_or_le t (min (cur + s) D) with hlt | hle
        · exact ⟨(cur, min (cur + s) D - cur), Or.inl rfl, h1, by simpa using hlt⟩
        · obtain ⟨p, hp, hp1, hp2⟩ := (ih (min (cur + s) D) hDe t).mp ⟨hle, h2⟩
          exact ⟨p, Or.inr hp, hp1, hp2⟩
      · rintro ⟨p, hp | hp, hp1, hp2⟩
        · subst hp
          simp only at hp1 hp2
          constructor
          · exact hp1
          · have : t < min (cur + s) D := by linarith
            exact this.trans_le hmin_le
        · obtain ⟨h1, h2⟩ := (ih (min (cur + s) D) hDe t).mpr ⟨p, hp, hp1, hp2⟩
          exact ⟨hcur_min.trans h1, h2⟩
    · rw [splitLoop_nil_of_le _ (not_lt.mp h)]
      simp only [List.not_mem_nil]
      constructor
      · rintro ⟨h1, h2⟩
        exact absurd ((h1.trans_lt h2).trans_le (not_lt.mp h)) (lt_irrefl cur)
      · rintro ⟨p, hp, -⟩
        exact absurd hp (by simp)

lemma split_fuel_sufficient {D s : ℚ} (hD : 0 < D) (hs : 0 < s) :
    D ≤ 0 + ((⌈D / s⌉.toNat : ℕ) : ℚ) * s := by
  have hpos : (0:ℚ) < D / s := div_pos hD hs
  have hceil : (0:ℤ) < ⌈D / s⌉ := Int.ceil_pos.mpr hpos
  have hcast : ((⌈D / s⌉.toNat : ℕ) : ℚ) = ((⌈D / s⌉ : ℤ) : ℚ) := by
    norm_cast
    exact Int.toNat_of_nonneg hceil.le
  rw [hcast, zero_add]
  have h1 : D / s ≤ ((⌈D / s⌉ : ℤ) : ℚ) := Int.le_ceil _
  calc D = D / s * s := by field_simp
    _ ≤ ((⌈D / s⌉ : ℤ) : ℚ) * s := by
        exact mul_le_mul_of_nonneg_right h1 hs.le

/--
Claim C1: for every source duration D > 0 and segment_duration s > 0, the
segment list returned by `split_video_into_segments` is nonempty, starts
at offset 0, each segment's start offset equals the previous segment's
start plus its duration (contiguous), every segment's duration equals s
except possibly the last, every duration is positive, the segments are
pairwise non-overlapping, the last segment's end equals D exactly, and
the segments' half-open intervals exactly tile [0, D).
-/
theorem split_video_into_segments_tiles (D s : ℚ) (hD : 0 < D) (hs : 0 < s) :
    split_video_into_segments D s ≠ [] ∧
    (∃ d, (split_video_into_segments D s).head? = some (0, d)) ∧
    (split_video_into_segments D s).Chain' (fun p q => q.1 = p.1 + p.2) ∧
    (∀ p ∈ (split_video_into_segments D s).dropLast, p.2 = s) ∧
    (∀ p, (split_video_into_segments D s).getLast? = some p → p.1 + p.2 = D) ∧
    (∀ p ∈ split_video_into_segments D s, 0 < p.2) ∧
    (split_video_into_segments D s).Pairwise (fun p q => p.1 + p.2 ≤ q.1) ∧
    (∀ t : ℚ, (0 ≤ t ∧ t < D) ↔
      ∃ p ∈ split_video_into_segments D s, p.1 ≤ t ∧ t < p.1 + p.2) := by
  have hfuel := split_fuel_sufficient hD hs
  have hfpos : 0 < ⌈D / s⌉.toNat := by
    have : (0:ℤ) < ⌈D / s⌉ := Int.ceil_pos.mpr (div_pos hD hs)
    omega
  unfold split_video_into_segments
  refine ⟨splitLoop_ne_nil hD hfpos, ⟨_, splitLoop_head hD hfpos⟩,
    splitLoop_chain _ _, splitLoop_dropLast _ _,
    splitLoop_getLast _ _ hD hfuel, splitLoop_pos hs _ _,
    splitLoop_pairwise hs _ _, splitLoop_union hs _ _ hfuel⟩

/--
Witness for C1: a 10-second source with a 3-second budget.
-/
theorem split_video_into_segments_tiles_witness :
    (0:ℚ) < 10 ∧ (0:ℚ) < 3 ∧
    (split_video_into_segments 10 3 ≠ [] ∧
    (∃ d, (split_video_into_segments 10 3).head? = some (0, d)) ∧
    (split_video_into_segments 10 3).Chain' (fun p q => q.1 = p.1 + p.2) ∧
    (∀ p ∈ (split_video_into_segments 10 3).dropLast, p.2 = 3) ∧
    (∀ p, (split_video_into_segments 10 3).getLast? = some p → p.1 + p.2 = 10) ∧
    (∀ p ∈ split_video_into_segments 10 3, 0 < p.2) ∧
    (split_video_into_segments 10 3).Pairwise (fun p q => p.1 + p.2 ≤ q.1) ∧
    (∀ t : ℚ, (0 ≤ t ∧ t < 10) ↔
      ∃ p ∈ split_video_into_segments 10 3, p.1 ≤ t ∧ t < p.1 + p.2)) :=
  ⟨by norm_num, by norm_num,
    split_video_into_segments_tiles 10 3 (by norm_num) (by norm_num)⟩

/- ======================================================================
   Python string primitives used by the analyzer, re-implemented
   executably over character lists (core's String functions do not
   kernel-reduce).
   ====================================================================== -/

/-- Python `str.lower()` (ASCII case folding, which covers every string the
analyzer compares). -/
def pyLower (s : String) : String := String.mk (s.data.map Char.toLower)

/-- Python `str.strip()`: drop leading and trailing whitespace. -/
def pyStrip (s : String) : String :=
  String.mk (((s.data.dropWhile Char.isWhitespace).reverse.dropWhile
    Char.isWhitespace).reverse)

/-- Worker for `pySplit`: split `s` on each non-overlapping occurrence of
`sep` from the left, accumulating the current piece in reverse in `acc`.
`fuel` only forces termination; `pySplit` supplies `s.length + 1`, which
is never exhausted for a nonempty `sep`. -/
def splitCharsAux (sep : List Char) : ℕ → List Char → List Char → List (List Char)
  | 0, acc, s => [acc.reverse ++ s]
  | fuel + 1, acc, s =>
    if sep.isPrefixOf s then
      acc.reverse :: splitCharsAux sep fuel [] (s.drop sep.length)
    else
      match s with
      | [] => [acc.reverse]
      | c :: rest => splitCharsAux sep fuel (c :: acc) rest

/-- Python `s.split(sep)` for a nonempty separator. -/
def pySplit (s sep : String) : List String :=
  (splitCharsAux sep.data (s.data.length + 1) [] s.data).map String.mk

/- ======================================================================
   Detections: backend/services/analyzer.py, filter_by_confidence_and_angle
   ====================================================================== -/

/--
A detection dict as produced by parsing the model's JSON response
(analyzer.py detection schema).  `none` models an absent key.  The
free-text fields the pipeline never branches on (`play_description`,
`player_jersey`, `action_type`, `reasoning`) are omitted: the code only
ever prints them.
-/
structure Clip where
  start_time : Option ℚ := none
  end_time : Option ℚ := none
  confidence_score : Option ℚ := none
  camera_angle : Option String := none
  verification_status : Option String := none
  verification_confidence : Option ℚ := none
  rejection_reason : Option String := none
deriving DecidableEq

/-- `MIN_CONFIDENCE_SCORE` (analyzer.py line 62). -/
def MIN_CONFIDENCE_SCORE : ℚ := 70

/--
`filter_by_confidence_and_angle(detections)` (analyzer.py lines 458-486):
partition detections into (accepted, rejected), rejecting first on camera
angle (`clip.get('camera_angle', '').lower() != 'sideline'`) and then on
confidence (`clip.get('confidence_score', 0) < MIN_CONFIDENCE_SCORE`);
rejected dicts get a `rejection_reason` key added, accepted dicts pass
through unchanged and in order.
-/
def filter_by_confidence_and_angle : List Clip → List Clip × List Clip
  | [] => ([], [])
  | clip :: rest =>
    let confidence := clip.confidence_score.getD 0
    let camera_angle := pyLower (clip.camera_angle.getD "")
    let tail := filter_by_confidence_and_angle rest
    if camera_angle ≠ "sideline" then
      (tail.1, { clip with
        rejection_reason := some ("Wrong camera angle: " ++ camera_angle) } :: tail.2)
    else if confidence < MIN_CONFIDENCE_SCORE then
      (tail.1, { clip with
        rejection_reason := some ("Low confidence: " ++ toString confidence) } :: tail.2)
    else (clip :: tail.1, tail.2)

/--
Claim C3: `filter_by_confidence_and_angle` accepts a detection iff its
(lower-cased) camera_angle equals "sideline" and its confidence_score is
at least the threshold 70, preserving source order (the accepted list is
a `List.filter` of the input); every rejected detection carries a
rejection_reason; a detection at exactly the threshold is accepted, one
at threshold − 1 is rejected, and a wrong camera angle is rejected
regardless of confidence.
-/
theorem filter_by_confidence_and_angle_spec :
    (∀ dets : List Clip,
      (filter_by_confidence_and_angle dets).1 =
        dets.filter (fun c =>
          decide (pyLower (c.camera_angle.getD "") = "sideline") &&
          decide (MIN_CONFIDENCE_SCORE ≤ c.confidence_score.getD 0))) ∧
    (∀ dets : List Clip, ∀ r ∈ (filter_by_confidence_and_angle dets).2,
      r.rejection_reason.isSome) ∧
    (∀ c : Clip, pyLower (c.camera_angle.getD "") = "sideline" →
      c.confidence_score = some MIN_CONFIDENCE_SCORE →
      filter_by_confidence_and_angle [c] = ([c], [])) ∧
    (∀ c : Clip, c.confidence_score = some (MIN_CONFIDENCE_SCORE - 1) →
      (filter_by_confidence_and_angle [c]).1 = []) ∧
    (∀ c : Clip, pyLower (c.camera_angle.getD "") ≠ "sideline" →
      (filter_by_confidence_and_angle [c]).1 = []) := by
  refine ⟨?_, ?_, ?_, ?_, ?_⟩
  · intro dets
    induction dets with
    | nil => rfl
    | cons clip rest ih =>
      by_cases h1 : pyLower (clip.camera_angle.getD "") = "sideline"
      · by_cases h2 : MIN_CONFIDENCE_SCORE ≤ clip.confidence_score.getD 0
        · simp [filter_by_confidence_and_angle, h1, not_lt.mpr h2, ih,
            List.filter_cons, h2]
        · simp [filter_by_confidence_and_angle, h1, not_le.mp h2, ih,
            List.filter_cons, h2]
      · simp [filter_by_confidence_and_angle, h1, ih, List.filter_cons]
  · intro dets
    induction dets with
    | nil => intro r hr; simp [filter_by_confidence_and_angle] at hr
    | cons clip rest ih =>
      intro r hr
      by_cases h1 : pyLower (clip.camera_angle.getD "") = "sideline"
      · by_cases h2 : clip.confidence_score.getD 0 < MIN_CONFIDENCE_SCORE
        · simp only [filter_by_confidence_and_angle, h1, ne_eq,
            not_true_eq_false, if_false, if_pos h2, List.mem_cons] at hr
          rcases hr with rfl | hr
          · rfl
          · exact ih r hr
        · simp only [filter_by_confidence_and_angle, h1, ne_eq,
            not_true_eq_false, if_false, if_neg h2] at hr
          exact ih r hr
      · simp only [filter_by_confidence_and_angle, ne_eq, h1,
          not_false_eq_true, if_true, List.mem_cons] at hr
        rcases hr with rfl | hr
        · rfl
        · exact ih r hr
  · intro c h1 h2
    simp [filter_by_confidence_and_angle, h1, h2, MIN_CONFIDENCE_SCORE]
  · intro c h2
    by_cases h1 : pyLower (c.camera_angle.getD "") = "sideline"
    · norm_num [filter_by_confidence_and_angle, h1, h2, MIN_CONFIDENCE_SCORE]
    · simp [filter_by_confidence_and_angle, h1]
  · intro c h1
    simp [filter_by_confidence_and_angle, h1]

/-- Witness for C3 at concrete detections: a sideline detection with
confidence exactly 70 is accepted, confidence 69 is rejected, and an
endzone detection with confidence 95 is rejected. -/
theorem filter_by_confidence_and_angle_spec_witness :
    filter_by_confidence_and_angle
      [{ camera_angle := some "sideline", confidence_score := some 70 }] =
      ([{ camera_angle := some "sideline", confidence_score := some 70 }], []) ∧
    (filter_by_confidence_and_angle
      [{ camera_angle := some "sideline", confidence_score := some 69 }]).1 = [] ∧
    (filter_by_confidence_and_angle
      [{ camera_angle := some "endzone", confidence_score := some 95 }]).1 = [] :=
  ⟨filter_by_confidence_and_angle_spec.2.2.1 _ (by decide) (by norm_num [MIN_CONFIDENCE_SCORE]),
   filter_by_confidence_and_angle_spec.2.2.2.1 _ (by norm_num [MIN_CONFIDENCE_SCORE]),
   filter_by_confidence_and_angle_spec.2.2.2.2 _ (by decide)⟩

/--
Claim C10: `filter_by_confidence_and_angle` is total and fail-closed on
arbitrary detection dicts: a missing camera_angle key is read as the
empty string and rejected at the angle gate, a missing confidence_score
key is read as 0 and rejected at the confidence gate, any capitalization
of "sideline" passes the angle gate, and the function never drops or
duplicates an input (accepted and rejected lengths sum to the input
length — in particular it never raises).
-/
theorem filter_by_confidence_and_angle_fail_closed :
    (∀ c : Clip, c.camera_angle = none →
      filter_by_confidence_and_angle [c] =
        ([], [{ c with rejection_reason := some "Wrong camera angle: " }])) ∧
    (∀ c : Clip, pyLower (c.camera_angle.getD "") = "sideline" →
      c.confidence_score = none →
      filter_by_confidence_and_angle [c] =
        ([], [{ c with rejection_reason := some ("Low confidence: " ++ toString (0 : ℚ)) }])) ∧
    (∀ (c : Clip) (a : String), c.camera_angle = some a →
      pyLower a = "sideline" →
      MIN_CONFIDENCE_SCORE ≤ c.confidence_score.getD 0 →
      filter_by_confidence_and_angle [c] = ([c], [])) ∧
    (∀ dets : List Clip,
      (filter_by_confidence_and_angle dets).1.length +
        (filter_by_confidence_and_angle dets).2.length = dets.length) := by
  have hne : pyLower "" ≠ "sideline" := by decide
  have hmsg : "Wrong camera angle: " ++ pyLower "" = "Wrong camera angle: " := by
    decide
  refine ⟨?_, ?_, ?_, ?_⟩
  · intro c h
    simp [filter_by_confidence_and_angle, h, hne, hmsg]
  · intro c h1 h2
    simp [filter_by_confidence_and_angle, h1, h2, MIN_CONFIDENCE_SCORE]
  · intro c a h1 h2 h3
    simp [filter_by_confidence_and_angle, h1, h2, not_lt.mpr h3]
  · intro dets
    induction dets with
    | nil => rfl
    | cons clip rest ih =>
      by_cases h1 : pyLower (clip.camera_angle.getD "") = "sideline"
      · by_cases h2 : clip.confidence_score.getD 0 < MIN_CONFIDENCE_SCORE
        · simp only [filter_by_confidence_and_angle, h1, ne_eq,
            not_true_eq_false, if_false, if_pos h2, List.length_cons]
          omega
        · simp only [filter_by_confidence_and_angle, h1, ne_eq,
            not_true_eq_false, if_false, if_neg h2, List.length_cons]
          omega
      · simp only [filter_by_confidence_and_angle, ne_eq, h1,
          not_false_eq_true, if_true, List.length_cons]
        omega

/-- Witness for C10: a detection with no camera_angle key, one with a
sideline angle but no confidence_score key, one with a mixed-case
"SideLine" angle and confidence 88, and the sum-of-lengths fact on that
three-element input. -/
theorem filter_by_confidence_and_angle_fail_closed_witness :
    filter_by_confidence_and_angle [{ confidence_score := some 99 }] =
      ([], [{ confidence_score := some 99,
              rejection_reason := some "Wrong camera angle: " }]) ∧
    filter_by_confidence_and_angle [{ camera_angle := some "sideline" }] =
      ([], [{ camera_angle := some "sideline",
              rejection_reason := some ("Low confidence: " ++ toString (0 : ℚ)) }]) ∧
    filter_by_confidence_and_angle
      [{ camera_angle := some "SideLine", confidence_score := some 88 }] =
      ([{ camera_angle := some "SideLine", confidence_score := some 88 }], []) :=
  ⟨filter_by_confidence_and_angle_fail_closed.1 _ rfl,
   filter_by_confidence_and_angle_fail_closed.2.1 _ (by decide) rfl,
   filter_by_confidence_and_angle_fail_closed.2.2.1 _ "SideLine" rfl (by decide)
     (by norm_num [MIN_CONFIDENCE_SCORE])⟩

/- ======================================================================
   Clip extractor: backend/clipper.py, extract_clips
   ====================================================================== -/

/--
The `for i, ts in enumerate(timestamps)` loop of `extract_clips`
(clipper.py lines 63-93): for each detection interval, apply the padding,
clamp to `[0, duration]`, skip the clip when the clamped length is not
positive, and otherwise record the `(start, end)` pair that the code
hands to ffmpeg (`ss=start, t=end-start`, materialized as `clip_path`
and collected in `clip_paths`).
-/
def clipLoop (duration padding : ℚ) : List (ℚ × ℚ) → List (ℚ × ℚ)
  | [] => []
  | ts :: rest =>
    let start := max 0 (ts.1 - padding)
    let stop := min duration (ts.2 + padding)
    if stop - start ≤ 0 then clipLoop duration padding rest
    else (start, stop) :: clipLoop duration padding rest

/--
`extract_clips(video_path, timestamps, output_path, padding)`
(clipper.py lines 20-135).  The probed source `duration` is passed
directly and each timestamp dict is reduced to its
`(start_time, end_time)` pair (the only keys the function reads).
Returns `Except`: `.error` models the raised `ValueError`s
("No timestamps provided" for an empty input list, "No valid clips
extracted" when every clip degenerates), `.ok` carries the returned
output path together with the list of cut intervals the ffmpeg calls
received, in input order.
-/
def extract_clips (duration : ℚ) (timestamps : List (ℚ × ℚ)) (padding : ℚ)
    (output_path : String) : Except String (String × List (ℚ × ℚ)) :=
  if timestamps.isEmpty then .error "No timestamps provided"
  else
    let clip_paths := clipLoop duration padding timestamps
    if clip_paths.isEmpty then .error "No valid clips extracted"
    else .ok (output_path, clip_paths)

/--
Claim C4: `extract_clips` cuts exactly the intervals
`[max(0, start_time − p), min(D, end_time + p)]` of positive length, in
input order (the cut list is the evident `filterMap` of the input), each
produced interval has that shape and positive length, a detection whose
padded, clamped interval has length ≤ 0 is skipped, and for p = 2 and a
detection at [0.5, 1.0] in a source of duration 10 the cut interval is
[0, 3].
-/
theorem extract_clips_intervals :
    (∀ (D p : ℚ) (ts : List (ℚ × ℚ)),
      clipLoop D p ts = ts.filterMap (fun t =>
        if 0 < min D (t.2 + p) - max 0 (t.1 - p) then
          some (max 0 (t.1 - p), min D (t.2 + p))
        else none)) ∧
    (∀ (D p : ℚ) (ts : List (ℚ × ℚ)), ∀ q ∈ clipLoop D p ts,
      (∃ t ∈ ts, q = (max 0 (t.1 - p), min D (t.2 + p))) ∧ q.1 < q.2) ∧
    (∀ (D p : ℚ) (ts : List (ℚ × ℚ)) (out : String) (path : String)
      (clips : List (ℚ × ℚ)),
      extract_clips D ts p out = .ok (path, clips) → clips = clipLoop D p ts) ∧
    clipLoop 10 2 [(1/2, 1)] = [(0, 3)] := by
  refine ⟨?_, ?_, ?_, by norm_num [clipLoop]⟩
  · intro D p ts
    induction ts with
    | nil => rfl
    | cons t rest ih =>
      simp only [clipLoop, List.filterMap_cons]
      by_cases h : min D (t.2 + p) - max 0 (t.1 - p) ≤ 0
      · rw [if_pos h, if_neg (not_lt.mpr h)]
        exact ih
      · rw [if_neg h, if_pos (not_le.mp h)]
        exact congrArg _ ih
  · intro D p ts
    induction ts with
    | nil => intro q hq; simp [clipLoop] at hq
    | cons t rest ih =>
      intro q hq
      by_cases h : min D (t.2 + p) - max 0 (t.1 - p) ≤ 0
      · simp only [clipLoop, if_pos h] at hq
        obtain ⟨⟨u, hu, hq1⟩, hq2⟩ := ih q hq
        exact ⟨⟨u, List.mem_cons_of_mem _ hu, hq1⟩, hq2⟩
      · simp only [clipLoop, if_neg h, List.mem_cons] at hq
        rcases hq with rfl | hq
        · exact ⟨⟨t, List.mem_cons_self _ _, rfl⟩, by linarith [not_le.mp h]⟩
        · obtain ⟨⟨u, hu, hq1⟩, hq2⟩ := ih q hq
          exact ⟨⟨u, List.mem_cons_of_mem _ hu, hq1⟩, hq2⟩
  · intro D p ts out path clips h
    unfold extract_clips at h
    by_cases h1 : ts.isEmpty
    · simp [h1] at h
    · simp only [h1, if_false, Bool.false_eq_true] at h
      by_cases h2 : (clipLoop D p ts).isEmpty
      · simp [h2] at h
      · simp only [h2, if_false, Bool.false_eq_true, Except.ok.injEq,
          Prod.mk.injEq] at h
        exact h.2.symm

/-- Witness for C4: the spec's concrete padding-clamp scenario run through
`extract_clips` end to end (the theorem's ok-case conjunct applied with
its hypothesis discharged at this input). -/
theorem extract_clips_intervals_witness :
    extract_clips 10 [(1/2, 1)] 2 "out.mp4" = .ok ("out.mp4", [(0, 3)]) ∧
    [((0:ℚ), (3:ℚ))] = clipLoop 10 2 [(1/2, 1)] := by
  have h : extract_clips 10 [(1/2, 1)] 2 "out.mp4" = .ok ("out.mp4", [(0, 3)]) := by
    norm_num [extract_clips, clipLoop]
  exact ⟨h, extract_clips_intervals.2.2.1 10 2 [(1/2, 1)] "out.mp4" "out.mp4"
    [(0, 3)] h⟩

lemma clipLoop_eq_nil_iff {D p : ℚ} (ts : List (ℚ × ℚ)) :
    clipLoop D p ts = [] ↔ ∀ t ∈ ts, min D (t.2 + p) - max 0 (t.1 - p) ≤ 0 := by
  induction ts with
  | nil => simp [clipLoop]
  | cons t rest ih =>
    simp only [clipLoop]
    by_cases h : min D (t.2 + p) - max 0 (t.1 - p) ≤ 0
    · rw [if_pos h, ih]
      constructor
      · intro hall u hu
        rcases List.mem_cons.mp hu with rfl | hu
        · exact h
        · exact hall u hu
      · intro hall u hu
        exact hall u (List.mem_cons_of_mem _ hu)
    · rw [if_neg h]
      constructor
      · intro hc
        exact absurd hc (List.cons_ne_nil _ _)
      · intro hall
        exact absurd (hall t (List.mem_cons_self _ _)) h

/--
Claim C5: `extract_clips` raises an error iff the input detection list is
empty or every interval degenerates (length ≤ 0) after padding and
clamping; when at least one interval survives it returns the output path
(together with the surviving cut list) and does not raise.
-/
theorem extract_clips_error_iff :
    (∀ (D p : ℚ) (ts : List (ℚ × ℚ)) (out : String),
      (∃ e, extract_clips D ts p out = .error e) ↔
        (ts = [] ∨ ∀ t ∈ ts, min D (t.2 + p) - max 0 (t.1 - p) ≤ 0)) ∧
    (∀ (D p : ℚ) (ts : List (ℚ × ℚ)) (out : String),
      ts ≠ [] → (∃ t ∈ ts, 0 < min D (t.2 + p) - max 0 (t.1 - p)) →
      extract_clips D ts p out = .ok (out, clipLoop D p ts)) := by
  constructor
  · intro D p ts out
    unfold extract_clips
    by_cases h1 : ts.isEmpty
    · simp only [h1, if_true]
      exact ⟨fun _ => Or.inl (List.isEmpty_iff.mp h1), fun _ => ⟨_, rfl⟩⟩
    · simp only [h1, Bool.false_eq_true, if_false]
      by_cases h2 : (clipLoop D p ts).isEmpty
      · simp only [h2, if_true]
        refine ⟨fun _ => Or.inr ((clipLoop_eq_nil_iff ts).mp
          (List.isEmpty_iff.mp h2)), fun _ => ⟨_, rfl⟩⟩
      · simp only [h2, Bool.false_eq_true, if_false]
        constructor
        · rintro ⟨e, he⟩
          exact Except.noConfusion he
        · rintro (rfl | hall)
          · simp at h1
          · exact absurd ((clipLoop_eq_nil_iff ts).mpr hall)
              (by simpa [List.isEmpty_iff] using h2)
  · intro D p ts out hne ⟨t, ht, htpos⟩
    have h1 : ts.isEmpty = false := by simpa [List.isEmpty_iff] using hne
    have hcl : clipLoop D p ts ≠ [] := fun hnil =>
      absurd htpos (not_lt.mpr ((clipLoop_eq_nil_iff ts).mp hnil t ht))
    have h2 : (clipLoop D p ts).isEmpty = false := by
      simpa [List.isEmpty_iff] using hcl
    simp [extract_clips, h1, h2]

/-- Witness for C5: an empty detection list errors, a single detection
whose padded interval degenerates (detection [20, 21] padded by 2 in a
10-second source clamps to [10, 18], length < 0) errors, and the spec's
surviving detection returns the output path. -/
theorem extract_clips_error_iff_witness :
    (∃ e, extract_clips 10 ([] : List (ℚ × ℚ)) 2 "out.mp4" = .error e) ∧
    (∃ e, extract_clips 10 [(20, 21)] 2 "out.mp4" = .error e) ∧
    extract_clips 10 [(1/2, 1)] 2 "out.mp4" =
      .ok ("out.mp4", clipLoop 10 2 [(1/2, 1)]) :=
  ⟨(extract_clips_error_iff.1 10 2 [] "out.mp4").mpr (Or.inl rfl),
   (extract_clips_error_iff.1 10 2 [(20, 21)] "out.mp4").mpr
     (Or.inr (by norm_num)),
   extract_clips_error_iff.2 10 2 [(1/2, 1)] "out.mp4" (by simp)
     ⟨(1/2, 1), List.mem_singleton_self _, by norm_num⟩⟩

/- ======================================================================
   Remote call with retry: backend/services/analyzer.py,
   call_gemini_with_retry
   ====================================================================== -/

/-- Outcome of one attempt of the remote `generate_content` call, as
classified by the `except` clause of `call_gemini_with_retry`: a
successful response text, an exception whose string contains "429" or
"RESOURCE_EXHAUSTED" (a rate-limit signal), or any other exception. -/
inductive RemoteResult where
  | success (text : String)
  | rateLimited
  | otherError
deriving DecidableEq

/-- How `call_gemini_with_retry` terminates: return of the stripped
response text, `InterruptedError` (cancellation), the `ValueError`
raised when retries are exhausted, or re-raise of a non-rate-limit
exception. -/
inductive GeminiOutcome where
  | ok (text : String)
  | interrupted
  | rateLimitExceeded
  | raised
deriving DecidableEq

/-- The interruptible wait `for _ in range(retry_delay): if cancel ...;
time.sleep(1)` (analyzer.py lines 426-429): one cancellation observation
per second of wait.  Returns whether the wait was interrupted and the
observation counter afterwards. -/
def waitLoop (cancel : ℕ → Bool) : ℕ → ℕ → Bool × ℕ
  | 0, c => (false, c)
  | n + 1, c => if cancel c then (true, c + 1) else waitLoop cancel n (c + 1)

/-- The `for attempt in range(max_retries)` loop of
`call_gemini_with_retry` (analyzer.py lines 397-436).  `outcome i` is
the result of the i-th remote attempt; the returned list records the
completed waits (in seconds) in order.  `fuel` counts the remaining
iterations (initially `max_retries`, in lockstep with `attempt`). -/
def geminiLoop (outcome : ℕ → RemoteResult) (cancel : ℕ → Bool) (max_retries : ℕ) :
    ℕ → ℕ → ℕ → ℕ → GeminiOutcome × ℕ × List ℕ
  | 0, _, _, c => (.ok "", c, [])
  | fuel + 1, attempt, retry_delay, c =>
    if cancel c then (.interrupted, c + 1, [])
    else
      match outcome attempt with
      | .success t => (.ok (pyStrip t), c + 1, [])
      | .otherError => (.raised, c + 1, [])
      | .rateLimited =>
        if attempt < max_retries - 1 then
          let w := waitLoop cancel retry_delay (c + 1)
          if w.1 then (.interrupted, w.2, [])
          else
            let rest := geminiLoop outcome cancel max_retries fuel (attempt + 1)
              (min (retry_delay * 2) 120) w.2
            (rest.1, rest.2.1, retry_delay :: rest.2.2)
        else (.rateLimitExceeded, c + 1, [])

/-- `call_gemini_with_retry(client, video_file, prompt, cancel_event,
max_retries)` (analyzer.py lines 388-436): `retry_delay` starts at 30
seconds. -/
def call_gemini_with_retry (outcome : ℕ → RemoteResult) (cancel : ℕ → Bool)
    (max_retries : ℕ) (c : ℕ) : GeminiOutcome × ℕ × List ℕ :=
  geminiLoop outcome cancel max_retries max_retries 0 30 c

lemma waitLoop_const_false : ∀ (n c : ℕ),
    waitLoop (fun _ => false) n c = (false, c + n) := by
  intro n
  induction n with
  | zero => intro c; simp [waitLoop]
  | succ m ih => intro c; simp [waitLoop, ih]; omega

/--
Claim C6: with 5 total attempts, waits start at 30 s, double after each
rate-limited attempt and are capped at 120 s (completed waits are
exactly 30, 60, 120, 120); exhausting all retries on rate-limit signals
raises the rate-limit-exceeded error; a success or a non-rate-limit
error after j rate-limited attempts ends the call right there (the
latter propagating with no further retry); and a wait is interruptible:
if the cancel flag becomes set one observation into the first wait the
call raises the cancellation error immediately.
-/
theorem call_gemini_with_retry_spec :
    (∀ (outcome : ℕ → RemoteResult) (c : ℕ),
      (∀ i < 5, outcome i = .rateLimited) →
      call_gemini_with_retry outcome (fun _ => false) 5 c =
        (.rateLimitExceeded, c + 335, [30, 60, 120, 120])) ∧
    (∀ (outcome : ℕ → RemoteResult) (c j : ℕ), j < 5 →
      (∀ i < j, outcome i = .rateLimited) → outcome j = .otherError →
      ∃ cf, call_gemini_with_retry outcome (fun _ => false) 5 c =
        (.raised, cf, List.take j [30, 60, 120, 120])) ∧
    (∀ (outcome : ℕ → RemoteResult) (c j : ℕ) (t : String), j < 5 →
      (∀ i < j, outcome i = .rateLimited) → outcome j = .success t →
      ∃ cf, call_gemini_with_retry outcome (fun _ => false) 5 c =
        (.ok (pyStrip t), cf, List.take j [30, 60, 120, 120])) ∧
    (∀ (outcome : ℕ → RemoteResult) (c : ℕ),
      outcome 0 = .rateLimited →
      call_gemini_with_retry outcome (fun n => decide (c < n)) 5 c =
        (.interrupted, c + 2, [])) := by
  refine ⟨?_, ?_, ?_, ?_⟩
  · intro outcome c h
    have h0 := h 0 (by norm_num)
    have h1 := h 1 (by norm_num)
    have h2 := h 2 (by norm_num)
    have h3 := h 3 (by norm_num)
    have h4 := h 4 (by norm_num)
    simp only [call_gemini_with_retry, geminiLoop, h0, h1, h2, h3, h4,
      waitLoop_const_false]
    norm_num
  · intro outcome c j hj hpre hj'
    interval_cases j
    · exact ⟨c + 1, by simp [call_gemini_with_retry, geminiLoop, hj']⟩
    · exact ⟨c + 32, by
        simp only [call_gemini_with_retry, geminiLoop, hpre 0 (by norm_num),
          hj', waitLoop_const_false]
        norm_num⟩
    · exact ⟨c + 93, by
        simp only [call_gemini_with_retry, geminiLoop, hpre 0 (by norm_num),
          hpre 1 (by norm_num), hj', waitLoop_const_false]
        norm_num⟩
    · exact ⟨c + 214, by
        simp only [call_gemini_with_retry, geminiLoop, hpre 0 (by norm_num),
          hpre 1 (by norm_num), hpre 2 (by norm_num), hj', waitLoop_const_false]
        norm_num⟩
    · exact ⟨c + 335, by
        simp only [call_gemini_with_retry, geminiLoop, hpre 0 (by norm_num),
          hpre 1 (by norm_num), hpre 2 (by norm_num), hpre 3 (by norm_num),
          hj', waitLoop_const_false]
        norm_num⟩
  · intro outcome c j t hj hpre hj'
    interval_cases j
    · exact ⟨c + 1, by simp [call_gemini_with_retry, geminiLoop, hj']⟩
    · exact ⟨c + 32, by
        simp only [call_gemini_with_retry, geminiLoop, hpre 0 (by norm_num),
          hj', waitLoop_const_false]
        norm_num⟩
    · exact ⟨c + 93, by
        simp only [call_gemini_with_retry, geminiLoop, hpre 0 (by norm_num),
          hpre 1 (by norm_num), hj', waitLoop_const_false]
        norm_num⟩
    · exact ⟨c + 214, by
        simp only [call_gemini_with_retry, geminiLoop, hpre 0 (by norm_num),
          hpre 1 (by norm_num), hpre 2 (by norm_num), hj', waitLoop_const_false]
        norm_num⟩
    · exact ⟨c + 335, by
        simp only [call_gemini_with_retry, geminiLoop, hpre 0 (by norm_num),
          hpre 1 (by norm_num), hpre 2 (by norm_num), hpre 3 (by norm_num),
          hj', waitLoop_const_false]
        norm_num⟩
  · intro outcome c h0
    have hw : waitLoop (fun n => decide (c < n)) 30 (c + 1) = (true, c + 2) := by
      simp [waitLoop]
    simp [call_gemini_with_retry, geminiLoop, h0, hw]

/-- Witness for C6: concrete outcome sequences — all rate-limited; two
rate-limits then a non-rate-limit error; one rate-limit then success;
and a flag set during the first wait. -/
theorem call_gemini_with_retry_spec_witness :
    call_gemini_with_retry (fun _ => .rateLimited) (fun _ => false) 5 0 =
      (.rateLimitExceeded, 335, [30, 60, 120, 120]) ∧
    (∃ cf, call_gemini_with_retry
        (fun i => if i < 2 then .rateLimited else .otherError)
        (fun _ => false) 5 0 =
      (.raised, cf, List.take 2 [30, 60, 120, 120])) ∧
    (∃ cf, call_gemini_with_retry
        (fun i => if i < 1 then .rateLimited else .success "[]")
        (fun _ => false) 5 0 =
      (.ok (pyStrip "[]"), cf, List.take 1 [30, 60, 120, 120])) ∧
    call_gemini_with_retry (fun _ => .rateLimited) (fun n => decide (0 < n)) 5 0 =
      (.interrupted, 2, []) :=
  ⟨call_gemini_with_retry_spec.1 _ 0 (by decide),
   call_gemini_with_retry_spec.2.1 _ 0 2 (by norm_num) (by decide) (by decide),
   call_gemini_with_retry_spec.2.2.1 _ 0 1 "[]" (by norm_num) (by decide)
     (by decide),
   call_gemini_with_retry_spec.2.2.2 _ 0 (by decide)⟩

/- ======================================================================
   Response parsing and the per-segment pipeline:
   backend/services/analyzer.py, parse_json_response /
   analyze_single_segment / analyze_video
   ====================================================================== -/

/-- The markdown-fence stripping of `parse_json_response` (analyzer.py
lines 444-448): if "```json" occurs in the text take what follows its
first occurrence up to the next "```" and strip it; else if "```"
occurs, the text between the first two occurrences, stripped; else the
text unchanged. -/
def stripCodeFence (response_text : String) : String :=
  let parts := pySplit response_text "```json"
  if 1 < parts.length then
    pyStrip ((pySplit (parts.getD 1 "") "```").getD 0 "")
  else
    let parts2 := pySplit response_text "```"
    if 1 < parts2.length then
      pyStrip ((pySplit (parts2.getD 1 "") "```").getD 0 "")
    else response_text

/-- The result of `json.loads` on the stripped text, as far as the
analyzer inspects it: a top-level JSON array of detection objects, or
any other JSON value.  (Array items that are not objects, and non-numeric
values in numeric fields, are outside this model.) -/
inductive JsonValue where
  | arr (items : List Clip)
  | other
deriving DecidableEq

/-- `parse_json_response(response_text)` (analyzer.py lines 439-455),
parameterized by a `loads` oracle modelling `json.loads`; `loads t =
none` models `json.JSONDecodeError`, which the function catches,
returning None. -/
def parse_json_response (loads : String → Option JsonValue)
    (response_text : String) : Option JsonValue :=
  loads (stripCodeFence response_text)

/-- The verification dict obtained for one accepted clip.  `verify_clip`
(analyzer.py lines 489-517) is fail-closed: parse failures, remote
errors and cancellation during its remote call are caught inside it and
yield a REJECT dict, so an oracle producing an arbitrary dict per clip
index covers all its behaviours. -/
structure VerifyDict where
  recommendation : Option String := none
  overall_confidence : Option ℚ := none
  rejection_reason : Option String := none
deriving DecidableEq

/-- The `for i, clip in enumerate(accepted)` verification loop of
`analyze_single_segment` (analyzer.py lines 579-599): one cancellation
observation per iteration (`if cancel_event.is_set(): break`); a KEEP
recommendation marks the clip verified (upgrading its confidence to the
verification's overall_confidence when present) and keeps it; anything
else drops the clip (the rejected dict is mutated in place but not
returned). -/
def verifyLoop (verify : ℕ → VerifyDict) (cancel : ℕ → Bool) :
    List Clip → ℕ → ℕ → List Clip × ℕ
  | [], _, c => ([], c)
  | clip :: rest, i, c =>
    if cancel c then ([], c + 1)
    else
      let verification := verify i
      if verification.recommendation = some "KEEP" then
        let clip' := { clip with verification_status := some "verified", verification_confidence := some (verification.overall_confidence.getD (clip.confidence_score.getD 0)) }
        let t := verifyLoop verify cancel rest (i + 1) (c + 1)
        (clip' :: t.1, t.2)
      else
        verifyLoop verify cancel rest (i + 1) (c + 1)

/-- The timestamp-adjustment loop of `analyze_single_segment`
(analyzer.py lines 607-610): `clip['start_time'] =
float(clip['start_time']) + time_offset` and likewise for end_time.
`none` models the `KeyError` raised when a surviving clip lacks either
key. -/
def adjustClips (time_offset : ℚ) : List Clip → Option (List Clip)
  | [] => some []
  | clip :: rest =>
    match clip.start_time, clip.end_time with
    | some s, some e =>
      (adjustClips time_offset rest).map
        (fun l => { clip with start_time := some (s + time_offset), end_time := some (e + time_offset) } :: l)
    | _, _ => none

/-- How `upload_video` (analyzer.py lines 353-385) ends. -/
inductive UploadResult where
  | ready
  | interrupted
  | failed
deriving DecidableEq

/-- The `while video_file.state == PROCESSING` poll loop of
`upload_video`: one cancellation observation per poll tick;
`uploadFails` tells whether the file ends in the FAILED state (raising
ValueError) once processing finishes. -/
def pollLoop (cancel : ℕ → Bool) (uploadFails : Bool) : ℕ → ℕ → UploadResult × ℕ
  | 0, c => (if uploadFails then .failed else .ready, c)
  | n + 1, c =>
    if cancel c then (.interrupted, c + 1)
    else pollLoop cancel uploadFails n (c + 1)

/-- `upload_video(client, video_path, ...)` (analyzer.py lines 353-385):
one cancellation observation before the upload starts, then
`pollsNeeded` poll ticks. -/
def upload_video (cancel : ℕ → Bool) (pollsNeeded : ℕ) (uploadFails : Bool)
    (c : ℕ) : UploadResult × ℕ :=
  if cancel c then (.interrupted, c + 1)
  else pollLoop cancel uploadFails pollsNeeded (c + 1)

/-- The remote-service behaviours one segment's analysis observes. -/
structure SegOracle where
  pollsNeeded : ℕ
  uploadFails : Bool
  detect : ℕ → RemoteResult
  loads : String → Option JsonValue
  verify : ℕ → VerifyDict

/-- How a segment's (or the whole video's) analysis ends: a returned
clip list, `InterruptedError` (cancellation), `ValueError` from a FAILED
upload, the rate-limit-exhaustion error, a re-raised remote error, or
`KeyError` at the timestamp-adjustment step. -/
inductive SegResult where
  | clips (l : List Clip)
  | interrupted
  | uploadFailed
  | rateLimitExceeded
  | raised
  | keyError
deriving DecidableEq

/-- `ENABLE_VERIFICATION` (analyzer.py line 65). -/
def ENABLE_VERIFICATION : Bool := true

/-- `analyze_single_segment` (analyzer.py lines 520-620) up to but not
including the timestamp adjustment (the only step that reads
`time_offset`): initial cancellation check; upload with polling;
post-upload cancellation check that returns `[]`; detection call with
retry; parse (None or non-list gives `[]`); confidence/angle filter
(empty accepted list gives `[]`); verification loop.  Returns the
surviving clips still in segment-local time. -/
def segmentCore (cancel : ℕ → Bool) (o : SegOracle) (c : ℕ) : SegResult × ℕ :=
  if cancel c then (.interrupted, c + 1)
  else
    match upload_video cancel o.pollsNeeded o.uploadFails (c + 1) with
    | (.interrupted, c1) => (.interrupted, c1)
    | (.failed, c1) => (.uploadFailed, c1)
    | (.ready, c1) =>
      if cancel c1 then (.clips [], c1 + 1)
      else
        match call_gemini_with_retry o.detect cancel 5 (c1 + 1) with
        | (.interrupted, c2, _) => (.interrupted, c2)
        | (.rateLimitExceeded, c2, _) => (.rateLimitExceeded, c2)
        | (.raised, c2, _) => (.raised, c2)
        | (.ok text, c2, _) =>
          match parse_json_response o.loads text with
          | some (.arr detections) =>
            let accepted := (filter_by_confidence_and_angle detections).1
            if accepted.isEmpty then (.clips [], c2)
            else if ENABLE_VERIFICATION then
              let v := verifyLoop o.verify cancel accepted 0 c2
              (.clips v.1, v.2)
            else
              (.clips (accepted.map (fun clip => { clip with verification_status := some "skipped" })), c2)
          | _ => (.clips [], c2)

/-- `analyze_single_segment(client, video_path, query, time_offset,
cancel_event, ...)` (analyzer.py lines 520-620): the segment pipeline
followed by the timestamp adjustment by `time_offset`. -/
def analyze_single_segment (cancel : ℕ → Bool) (o : SegOracle)
    (time_offset : ℚ) (c : ℕ) : SegResult × ℕ :=
  match segmentCore cancel o c with
  | (.clips l, c1) =>
    match adjustClips time_offset l with
    | some adjusted => (.clips adjusted, c1)
    | none => (.keyError, c1)
  | r => r

/-- `MAX_FILE_SIZE_BYTES` (analyzer.py line 56; the decimal literal 1.8
is exact here). -/
def MAX_FILE_SIZE_BYTES : ℚ := 1.8 * 1024 ^ 3

/-- `TARGET_SEGMENT_SIZE_BYTES` (analyzer.py line 59). -/
def TARGET_SEGMENT_SIZE_BYTES : ℚ := 1.5 * 1024 ^ 3

/-- The sort `all_clips.sort(key=lambda x: x["start_time"])`
(analyzer.py line 735), modelled by a stable sort on the start_time key
(Python's sort is stable; insertion sort is the stable sort that kernel
computation handles).  Every merged clip carries a start_time by
construction; `getD 0` only totalizes the key function. -/
def sortClips (clips : List Clip) : List Clip :=
  clips.insertionSort (fun a b => a.start_time.getD 0 ≤ b.start_time.getD 0)

/-- The `for i, (segment_path, time_offset) in enumerate(segments)` loop
of `analyze_video` (analyzer.py lines 713-729) followed by the sort and
return (lines 735-738): one cancellation observation per segment, which
on a set flag returns `[]` for the whole run (discarding clips already
accumulated); each segment's clips are appended to `all_clips`. -/
def analyzeLoop (cancel : ℕ → Bool) (oracles : ℕ → SegOracle) :
    List (ℚ × ℚ) → ℕ → ℕ → List Clip → SegResult × ℕ
  | [], _, c, all_clips => (.clips (sortClips all_clips), c)
  | (time_offset, _) :: rest, i, c, all_clips =>
    if cancel c then (.clips [], c + 1)
    else
      match analyze_single_segment cancel (oracles i) time_offset (c + 1) with
      | (.clips segment_clips, c1) =>
        analyzeLoop cancel oracles rest (i + 1) c1 (all_clips ++ segment_clips)
      | r => r

/-- `analyze_video(video_path, query, progress_callback, cancel_event)`
(analyzer.py lines 623-745), with the probed `duration` and `file_size`
passed directly and one `SegOracle` per segment index.  A small file is
analyzed directly (offset 0, no sort); an oversized file is split with
the clamped `segment_duration`, with one cancellation observation per
produced segment inside the split loop (raising), one after the split
(returning `[]`), then the per-segment loop. -/
def analyze_video (cancel : ℕ → Bool) (oracles : ℕ → SegOracle)
    (duration file_size : ℚ) (c : ℕ) : SegResult × ℕ :=
  if file_size ≤ MAX_FILE_SIZE_BYTES then
    analyze_single_segment cancel (oracles 0) 0 c
  else
    let segment_duration := max 60 (min 600 (TARGET_SEGMENT_SIZE_BYTES / file_size * duration))
    let segments := split_video_into_segments duration segment_duration
    let w := waitLoop cancel segments.length c
    if w.1 then (.interrupted, w.2)
    else if cancel w.2 then (.clips [], w.2 + 1)
    else analyzeLoop cancel oracles segments 0 (w.2 + 1) []

lemma pollLoop_const_false (uf : Bool) : ∀ (n c : ℕ),
    pollLoop (fun _ => false) uf n c = (if uf then .failed else .ready, c + n) := by
  intro n
  induction n with
  | zero => intro c; simp [pollLoop]
  | succ m ih => intro c; simp [pollLoop, ih]; omega

/--
Claim C7: `parse_json_response` parses the fence-stripped response text
(a ```json fenced block, or a bare fenced block, is reduced to its
stripped interior before parsing), and a segment whose detection
response fails to parse (`loads` gives none) or parses to a non-array
JSON value makes `analyze_single_segment` return the empty detection
list, not an error.
-/
theorem parse_failure_yields_empty_list :
    (∀ (loads : String → Option JsonValue) (t : String),
      parse_json_response loads t = loads (stripCodeFence t)) ∧
    stripCodeFence "```json\n[1, 2]\n```" = "[1, 2]" ∧
    stripCodeFence "```\nplain fence\n```" = "plain fence" ∧
    stripCodeFence "no fence at all" = "no fence at all" ∧
    (∀ (o : SegOracle) (t : String) (off : ℚ) (c : ℕ),
      o.uploadFails = false →
      o.detect 0 = .success t →
      (∀ items, o.loads (stripCodeFence (pyStrip t)) ≠ some (.arr items)) →
      (analyze_single_segment (fun _ => false) o off c).1 = .clips []) := by
  refine ⟨fun _ _ => rfl, by decide, by decide, by decide, ?_⟩
  intro o t off c huf hdet hload
  have hpoll : ∀ c0 : ℕ, pollLoop (fun _ => false) o.uploadFails o.pollsNeeded c0 =
      (.ready, c0 + o.pollsNeeded) := by
    intro c0
    rw [pollLoop_const_false, huf]
    rfl
  have hgem : ∀ c0 : ℕ, call_gemini_with_retry o.detect (fun _ => false) 5 c0 =
      (.ok (pyStrip t), c0 + 1, []) := by
    intro c0
    simp [call_gemini_with_retry, geminiLoop, hdet]
  simp only [analyze_single_segment, segmentCore, upload_video, hpoll, hgem,
    parse_json_response, Bool.false_eq_true, if_false]
  cases hl : o.loads (stripCodeFence (pyStrip t)) with
  | none => rfl
  | some v =>
    cases v with
    | arr items => exact absurd hl (hload items)
    | other => rfl

/-- Witness for C7: a remote response that is not JSON at all (`loads`
rejects everything) gives the empty detection list. -/
theorem parse_failure_yields_empty_list_witness :
    (analyze_single_segment (fun _ => false)
      { pollsNeeded := 2, uploadFails := false,
        detect := fun _ => .success "this is not JSON",
        loads := fun _ => none,
        verify := fun _ => {} } 42 0).1 = .clips [] :=
  parse_failure_yields_empty_list.2.2.2.2 _ "this is not JSON" 42 0 rfl rfl
    (fun _ h => Option.noConfusion h)

/-- Shifting one clip's timestamps by an offset (the effect of the
adjustment loop on a clip whose keys are present). -/
def shiftClip (t : ℚ) (c : Clip) : Clip :=
  { c with start_time := c.start_time.map (· + t), end_time := c.end_time.map (· + t) }

lemma adjustClips_shift (t : ℚ) : ∀ l : List Clip,
    adjustClips t l = (adjustClips 0 l).map (List.map (shiftClip t)) := by
  intro l
  induction l with
  | nil => rfl
  | cons clip rest ih =>
    cases hs : clip.start_time with
    | none => simp [adjustClips, hs]
    | some s =>
      cases he : clip.end_time with
      | none => simp [adjustClips, hs, he]
      | some e =>
        simp only [adjustClips, hs, he, ih, Option.map_map]
        cases h0 : adjustClips 0 rest with
        | none => rfl
        | some l0 =>
          simp only [Option.map_some', Function.comp_apply, Option.some.injEq,
            List.map_cons]
          congr 1
          simp [shiftClip]

lemma sortClips_sorted (clips : List Clip) :
    (sortClips clips).Pairwise
      (fun a b => a.start_time.getD 0 ≤ b.start_time.getD 0) := by
  haveI : IsTotal Clip (fun a b => a.start_time.getD 0 ≤ b.start_time.getD 0) :=
    ⟨fun a b => le_total _ _⟩
  haveI : IsTrans Clip (fun a b => a.start_time.getD 0 ≤ b.start_time.getD 0) :=
    ⟨fun a b c' hab hbc => le_trans hab hbc⟩
  exact List.sorted_insertionSort _ clips

lemma analyzeLoop_sorted (cancel : ℕ → Bool) (oracles : ℕ → SegOracle) :
    ∀ (segments : List (ℚ × ℚ)) (i c : ℕ) (acc l : List Clip) (c1 : ℕ),
      analyzeLoop cancel oracles segments i c acc = (.clips l, c1) →
      l.Pairwise (fun a b => a.start_time.getD 0 ≤ b.start_time.getD 0) := by
  intro segments
  induction segments with
  | nil =>
    intro i c acc l c1 h
    simp only [analyzeLoop, Prod.mk.injEq, SegResult.clips.injEq] at h
    rw [← h.1]
    exact sortClips_sorted acc
  | cons seg rest ih =>
    intro i c acc l c1 h
    obtain ⟨toff, d⟩ := seg
    simp only [analyzeLoop] at h
    by_cases hc : cancel c = true
    · rw [if_pos hc] at h
      simp only [Prod.mk.injEq, SegResult.clips.injEq] at h
      rw [← h.1]
      exact List.Pairwise.nil
    · rw [if_neg hc] at h
      cases hseg : analyze_single_segment cancel (oracles i) toff (c + 1) with
      | mk r c2 =>
        rw [hseg] at h
        cases r with
        | clips seg_clips => exact ih (i + 1) c2 (acc ++ seg_clips) l c1 h
        | interrupted => simp at h
        | uploadFailed => simp at h
        | rateLimitExceeded => simp at h
        | raised => simp at h
        | keyError => simp at h

/--
Claim C2: the timestamp adjustment of `analyze_single_segment` shifts
every surviving detection's start_time and end_time by exactly the
segment's source offset (running with offset t yields the offset-0
result with every clip shifted by t; the adjustment map is the pointwise
shift; a detection at segment-local [1, 2] in a segment starting at 120
becomes [121, 122]); and on the segmented path the clip list returned by
`analyze_video` is sorted ascending by start_time.
-/
theorem analyze_offsets_shift_and_merge_sorted :
    (∀ (cancel : ℕ → Bool) (o : SegOracle) (t : ℚ) (c : ℕ) (l : List Clip)
      (c1 : ℕ),
      analyze_single_segment cancel o 0 c = (.clips l, c1) →
      analyze_single_segment cancel o t c = (.clips (l.map (shiftClip t)), c1)) ∧
    (∀ (t : ℚ) (l : List Clip),
      adjustClips t l = (adjustClips 0 l).map (List.map (shiftClip t))) ∧
    adjustClips 120 [{ start_time := some 1, end_time := some 2 }] =
      some [{ start_time := some 121, end_time := some 122 }] ∧
    (∀ (cancel : ℕ → Bool) (oracles : ℕ → SegOracle) (D size : ℚ) (c : ℕ)
      (l : List Clip) (c1 : ℕ),
      MAX_FILE_SIZE_BYTES < size →
      analyze_video cancel oracles D size c = (.clips l, c1) →
      l.Pairwise (fun a b => a.start_time.getD 0 ≤ b.start_time.getD 0)) := by
  refine ⟨?_, adjustClips_shift, by norm_num [adjustClips], ?_⟩
  · intro cancel o t c l c1 h
    simp only [analyze_single_segment] at h ⊢
    cases hsc : segmentCore cancel o c with
    | mk r c2 =>
      rw [hsc] at h
      cases r with
      | clips l0 =>
        simp only [] at h ⊢
        rw [adjustClips_shift t l0]
        cases h0 : adjustClips 0 l0 with
        | none =>
          rw [h0] at h
          simp at h
        | some l2 =>
          rw [h0] at h
          simp only [Prod.mk.injEq, SegResult.clips.injEq] at h
          simp only [Option.map_some']
          rw [h.1, h.2]
      | interrupted => simp at h
      | uploadFailed => simp at h
      | rateLimitExceeded => simp at h
      | raised => simp at h
      | keyError => simp at h
  · intro cancel oracles D size c l c1 hsize h
    simp only [analyze_video] at h
    rw [if_neg (not_le.mpr hsize)] at h
    cases hw : waitLoop cancel
        (split_video_into_segments D
          (max 60 (min 600 (TARGET_SEGMENT_SIZE_BYTES / size * D)))).length c with
    | mk intr c2 =>
      rw [hw] at h
      cases intr with
      | true => simp at h
      | false =>
        simp only [Bool.false_eq_true, if_false] at h
        by_cases hc : cancel c2 = true
        · rw [if_pos hc] at h
          simp only [Prod.mk.injEq, SegResult.clips.injEq] at h
          rw [← h.1]
          exact List.Pairwise.nil
        · rw [if_neg hc] at h
          exact analyzeLoop_sorted cancel oracles _ 0 (c2 + 1) [] l c1 h

/- The Batteries rational operations are `@[irreducible]`, which blocks
`decide` from evaluating concrete pipeline runs; restore default
transparency for them locally (the kernel ignores irreducibility
anyway).  The section stays open to the end of the file. -/
section

attribute [local semireducible] Rat.add Rat.mul Rat.sub Rat.inv Rat.ofScientific

/-- A sideline detection at segment-local [a, b] with confidence 90. -/
def sidelineClip (a b : ℚ) : Clip :=
  { start_time := some a, end_time := some b, confidence_score := some 90, camera_angle := some "sideline" }

/-- The same detection after surviving verification (confidence upgraded
to the verification's default, which here falls back to the dict's own
confidence). -/
def verifiedClip (a b : ℚ) : Clip :=
  { start_time := some a, end_time := some b, confidence_score := some 90, camera_angle := some "sideline", verification_status := some "verified", verification_confidence := some 90 }

/-- An oracle whose upload is immediately ready, whose detection call
succeeds at once with a single sideline detection at segment-local
[1, 2], and whose verification keeps everything. -/
def keepOracle : SegOracle :=
  { pollsNeeded := 0, uploadFails := false,
    detect := fun _ => .success "x",
    loads := fun _ => some (.arr [sidelineClip 1 2]),
    verify := fun _ => { recommendation := some "KEEP" } }

/-- Witness for C2: a segment at source offset 120 returns the
offset-0 detections shifted by 120, and a two-segment 4 GB run returns
its merged detections sorted by start_time. -/
theorem analyze_offsets_shift_and_merge_sorted_witness :
    analyze_single_segment (fun _ => false) keepOracle 120 0 =
      (.clips ([verifiedClip 1 2].map (shiftClip 120)), 5) ∧
    [verifiedClip 1 2, verifiedClip 61 62].Pairwise
      (fun a b => a.start_time.getD 0 ≤ b.start_time.getD 0) :=
  ⟨analyze_offsets_shift_and_merge_sorted.1 (fun _ => false) keepOracle 120 0
      [verifiedClip 1 2] 5 (by decide),
   analyze_offsets_shift_and_merge_sorted.2.2.2 (fun _ => false)
      (fun _ => keepOracle) 120 (4 * 1024 ^ 3) 0
      [verifiedClip 1 2, verifiedClip 61 62] 15
      (by norm_num [MAX_FILE_SIZE_BYTES]) (by decide)⟩

/--
Claim C8, evaluated at the failing input: a detection object missing the
required numeric field start_time but carrying a sideline camera_angle
and confidence 90 is NOT discarded — it passes
`filter_by_confidence_and_angle` and verification, and the segment's
analysis then fails with `KeyError` at the timestamp-adjustment step
(`float(clip['start_time'])`, analyzer.py line 609) instead of
returning a detection list.  (The legacy top-level `src/analyzer.py`
checks `"start_time" in item` before converting; the backend pipeline
does not.)
-/
theorem missing_start_time_raises_keyerror :
    (filter_by_confidence_and_angle
      [{ end_time := some 5, confidence_score := some 90, camera_angle := some "sideline" }]).1 =
      [{ end_time := some 5, confidence_score := some 90, camera_angle := some "sideline" }] ∧
    analyze_single_segment (fun _ => false)
      { pollsNeeded := 0, uploadFails := false,
        detect := fun _ => .success "x",
        loads := fun _ => some (.arr [{ end_time := some 5, confidence_score := some 90, camera_angle := some "sideline" }]),
        verify := fun _ => { recommendation := some "KEEP" } } 0 0 =
      (.keyError, 5) := by
  exact ⟨by decide, by decide⟩

/--
Counterexample to claim C9: with the cancel flag observed set from its
6th observation on (that is, at the second iteration of the
verification loop), `analyze_single_segment` raises no cancellation
error: it breaks out of verification and returns the single
already-verified detection — a partial, non-empty result (the second
accepted detection was never examined).
-/
theorem cancellation_observed_returns_partial_list :
    (fun n => decide (5 ≤ n)) 5 = true ∧
    analyze_single_segment (fun n => decide (5 ≤ n))
      { pollsNeeded := 0, uploadFails := false,
        detect := fun _ => .success "x",
        loads := fun _ => some (.arr [sidelineClip 1 2, sidelineClip 10 12]),
        verify := fun _ => { recommendation := some "KEEP" } } 0 0 =
      (.clips [verifiedClip 1 2], 6) := by
  exact ⟨by decide, by decide⟩

/--
Claim C9 amended: cancellation handling differs by check point.  The
run-start check of `analyze_single_segment`, and the pre-upload and
poll-tick checks of `upload_video`, raise the cancellation error; but
the post-upload check returns an empty detection list instead of
raising; the per-segment check in `analyze_video`'s loop returns an
empty list for the whole run, discarding the detections already
accumulated, without raising; and a cancellation observed at a
pre-verification check breaks that loop and returns the partial list of
detections already verified (dropping the not-yet-verified ones).
-/
theorem cancellation_checkpoint_behaviour :
    (∀ (cancel : ℕ → Bool) (o : SegOracle) (t : ℚ) (c : ℕ),
      cancel c = true →
      analyze_single_segment cancel o t c = (.interrupted, c + 1)) ∧
    (∀ (cancel : ℕ → Bool) (o : SegOracle) (t : ℚ) (c : ℕ),
      cancel c = false → cancel (c + 1) = true →
      analyze_single_segment cancel o t c = (.interrupted, c + 1 + 1)) ∧
    (∀ (cancel : ℕ → Bool) (o : SegOracle) (t : ℚ) (c n : ℕ),
      o.pollsNeeded = n + 1 →
      cancel c = false → cancel (c + 1) = false → cancel (c + 1 + 1) = true →
      analyze_single_segment cancel o t c = (.interrupted, c + 1 + 1 + 1)) ∧
    (∀ (cancel : ℕ → Bool) (o : SegOracle) (t : ℚ) (c : ℕ),
      o.pollsNeeded = 0 → o.uploadFails = false →
      cancel c = false → cancel (c + 1) = false → cancel (c + 1 + 1) = true →
      analyze_single_segment cancel o t c = (.clips [], c + 1 + 1 + 1)) ∧
    (∀ (cancel : ℕ → Bool) (oracles : ℕ → SegOracle) (seg : ℚ × ℚ)
      (rest : List (ℚ × ℚ)) (i c : ℕ) (acc : List Clip),
      cancel c = true →
      analyzeLoop cancel oracles (seg :: rest) i c acc = (.clips [], c + 1)) ∧
    (∀ (verify : ℕ → VerifyDict) (cancel : ℕ → Bool) (clip clip2 : Clip)
      (rest : List Clip) (i c : ℕ),
      cancel c = false → cancel (c + 1) = true →
      (verify i).recommendation = some "KEEP" →
      verifyLoop verify cancel (clip :: clip2 :: rest) i c =
        ([{ clip with verification_status := some "verified", verification_confidence := some ((verify i).overall_confidence.getD (clip.confidence_score.getD 0)) }], c + 1 + 1)) := by
  refine ⟨?_, ?_, ?_, ?_, ?_, ?_⟩
  · intro cancel o t c h
    simp [analyze_single_segment, segmentCore, h]
  · intro cancel o t c h1 h2
    simp [analyze_single_segment, segmentCore, upload_video, h1, h2]
  · intro cancel o t c n hpolls h1 h2 h3
    simp [analyze_single_segment, segmentCore, upload_video, hpolls, pollLoop,
      h1, h2, h3]
  · intro cancel o t c hpolls huf h1 h2 h3
    simp [analyze_single_segment, segmentCore, upload_video, hpolls, huf,
      pollLoop, h1, h2, h3, adjustClips]
  · intro cancel oracles seg rest i c acc h
    obtain ⟨toff, d⟩ := seg
    simp [analyzeLoop, h]
  · intro verify cancel clip clip2 rest i c h1 h2 hrec
    simp [verifyLoop, h1, h2, hrec]

/-- Witness for the amended C9, at concrete schedules and oracles: the
flag set from observation 0, 1, or 2 (with and without a poll tick),
the per-segment check discarding an accumulated detection, and the
verification break keeping only the first of two accepted detections. -/
theorem cancellation_checkpoint_behaviour_witness :
    analyze_single_segment (fun _ => true) keepOracle 0 0 = (.interrupted, 1) ∧
    analyze_single_segment (fun n => decide (1 ≤ n)) keepOracle 0 0 =
      (.interrupted, 2) ∧
    analyze_single_segment (fun n => decide (2 ≤ n))
      { keepOracle with pollsNeeded := 1 } 0 0 = (.interrupted, 3) ∧
    analyze_single_segment (fun n => decide (2 ≤ n)) keepOracle 0 0 =
      (.clips [], 3) ∧
    analyzeLoop (fun _ => true) (fun _ => keepOracle) [(0, 60)] 0 0
      [sidelineClip 1 2] = (.clips [], 1) ∧
    verifyLoop (fun _ => { recommendation := some "KEEP" })
      (fun n => decide (1 ≤ n)) [sidelineClip 1 2, sidelineClip 10 12] 0 0 =
      ([verifiedClip 1 2], 2) :=
  ⟨cancellation_checkpoint_behaviour.1 _ keepOracle 0 0 rfl,
   cancellation_checkpoint_behaviour.2.1 _ keepOracle 0 0 (by decide) (by decide),
   cancellation_checkpoint_behaviour.2.2.1 _ _ 0 0 0 rfl (by decide) (by decide)
     (by decide),
   cancellation_checkpoint_behaviour.2.2.2.1 _ keepOracle 0 0 rfl rfl (by decide)
     (by decide) (by decide),
   cancellation_checkpoint_behaviour.2.2.2.2.1 _ _ (0, 60) [] 0 0
     [sidelineClip 1 2] rfl,
   cancellation_checkpoint_behaviour.2.2.2.2.2 _ _ (sidelineClip 1 2)
     (sidelineClip 10 12) [] 0 0 (by decide) (by decide) rfl⟩

end
